import Mathlib

/-!
Verification development for the Zantoras evidence replay engine
(`go/cmd/replay/main.go`): a shallow embedding of the hash-chain
integrity verifier, together with theorems about its behaviour.

The embedding models:
* SHA-256 over byte lists (bytes and 32-bit words are `Nat` with explicit
  reductions mod 2^8 / 2^32), matching Go's `crypto/sha256` / FIPS 180-4;
* the data model (`NetFlowRecord`, `NetFlowBlob`, `EvidenceExport`);
* the verification pass of `verifyEvidence`: per-blob hash recomputation,
  chain linkage check, aggregate chain hash, and the final verdict of
  `printVerificationResult`;
* a run-level model (`verifyEvidenceRun`) that also tracks the points where
  the Go code slices display strings (`blob.Hash[:32]` etc.), which panic
  on strings shorter than 32 bytes.
-/

namespace Zantoras

/-! ## SHA-256 over byte lists -/

/-- Reduce a natural number to a 32-bit word, as Go's `uint32` arithmetic does. -/
def w32 (n : Nat) : Nat := n % 4294967296

/-- Right rotation of a 32-bit word by `n` bits. -/
def rotr (n w : Nat) : Nat := w32 ((w >>> n) ||| (w <<< (32 - n)))

/-- The SHA-256 round constants K. -/
def shaK : List Nat :=
  [1116352408, 1899447441, 3049323471, 3921009573,
   961987163, 1508970993, 2453635748, 2870763221,
   3624381080, 310598401, 607225278, 1426881987,
   1925078388, 2162078206, 2614888103, 3248222580,
   3835390401, 4022224774, 264347078, 604807628,
   770255983, 1249150122, 1555081692, 1996064986,
   2554220882, 2821834349, 2952996808, 3210313671,
   3336571891, 3584528711, 113926993, 338241895,
   666307205, 773529912, 1294757372, 1396182291,
   1695183700, 1986661051, 2177026350, 2456956037,
   2730485921, 2820302411, 3259730800, 3345764771,
   3516065817, 3600352804, 4094571909, 275423344,
   430227734, 506948616, 659060556, 883997877,
   958139571, 1322822218, 1537002063, 1747873779,
   1955562222, 2024104815, 2227730452, 2361852424,
   2428436474, 2756734187, 3204031479, 3329325298]

/-- The eight working words of the SHA-256 state. -/
structure Words8 where
  a : Nat
  b : Nat
  c : Nat
  d : Nat
  e : Nat
  f : Nat
  g : Nat
  h : Nat

/-- The SHA-256 initial hash value H0. -/
def shaH0 : Words8 :=
  ⟨1779033703, 3144134277, 1013904242, 2773480762,
   1359893119, 2600822924, 528734635, 1541459225⟩

/-- Small sigma 0 of the SHA-256 message schedule. -/
def schedSig0 (w : Nat) : Nat := (rotr 7 w) ^^^ (rotr 18 w) ^^^ (w >>> 3)

/-- Small sigma 1 of the SHA-256 message schedule. -/
def schedSig1 (w : Nat) : Nat := (rotr 17 w) ^^^ (rotr 19 w) ^^^ (w >>> 10)

/-- One SHA-256 compression round with round constant `k` and schedule word `w`. -/
def shaRound (st : Words8) (k w : Nat) : Words8 :=
  let s1 := (rotr 6 st.e) ^^^ (rotr 11 st.e) ^^^ (rotr 25 st.e)
  let ch := (st.e &&& st.f) ^^^ ((st.e ^^^ 4294967295) &&& st.g)
  let t1 := w32 (st.h + s1 + ch + k + w)
  let s0 := (rotr 2 st.a) ^^^ (rotr 13 st.a) ^^^ (rotr 22 st.a)
  let mj := (st.a &&& st.b) ^^^ (st.a &&& st.c) ^^^ (st.b &&& st.c)
  let t2 := w32 (s0 + mj)
  ⟨w32 (t1 + t2), st.a, st.b, st.c, w32 (st.d + t1), st.e, st.f, st.g⟩

/-- Extend the message schedule by `n` further words; `rws` holds the words
produced so far, most recent first. -/
def extendSchedule : Nat → List Nat → List Nat
  | 0, rws => rws
  | n + 1, rws =>
      extendSchedule n
        (w32 (schedSig1 (rws.getD 1 0) + rws.getD 6 0 + schedSig0 (rws.getD 14 0) + rws.getD 15 0) :: rws)

/-- Group a byte list into big-endian 32-bit words, four bytes per word. -/
def bytesToWords : List Nat → List Nat
  | b0 :: b1 :: b2 :: b3 :: rest => (((b0 * 256 + b1) * 256 + b2) * 256 + b3) :: bytesToWords rest
  | _ => []

/-- Run the 64 SHA-256 rounds of one 64-byte block and add the result into the
incoming state. -/
def compressBlock (h0 : Words8) (block : List Nat) : Words8 :=
  let ws := (extendSchedule 48 (bytesToWords block).reverse).reverse
  let r := (shaK.zip ws).foldl (fun st kw => shaRound st kw.1 kw.2) h0
  ⟨w32 (h0.a + r.a), w32 (h0.b + r.b), w32 (h0.c + r.c), w32 (h0.d + r.d),
   w32 (h0.e + r.e), w32 (h0.f + r.f), w32 (h0.g + r.g), w32 (h0.h + r.h)⟩

/-- SHA-256 padding: append `0x80`, zeros up to 56 mod 64, then the bit length
as eight big-endian bytes. -/
def padMessage (msg : List Nat) : List Nat :=
  let len := msg.length
  let zeros := (64 + 56 - (len + 1) % 64) % 64
  let bits := 8 * len
  msg ++ 0x80 :: (List.replicate zeros 0 ++
    [(bits >>> 56) % 256, (bits >>> 48) % 256, (bits >>> 40) % 256, (bits >>> 32) % 256,
     (bits >>> 24) % 256, (bits >>> 16) % 256, (bits >>> 8) % 256, bits % 256])

/-- Split a (padded) byte list into 64-byte blocks; the first argument is
recursion fuel, at least the list length. -/
def toBlocks : Nat → List Nat → List (List Nat)
  | 0, _ => []
  | _ + 1, [] => []
  | fuel + 1, x :: xs => ((x :: xs).take 64) :: toBlocks fuel ((x :: xs).drop 64)

/-- The SHA-256 digest state of a byte-list message. -/
def sha256 (msg : List Nat) : Words8 :=
  (toBlocks (padMessage msg).length (padMessage msg)).foldl compressBlock shaH0

/-- The four big-endian bytes of a 32-bit word. -/
def wordBytes (w : Nat) : List Nat := [(w >>> 24) % 256, (w >>> 16) % 256, (w >>> 8) % 256, w % 256]

/-- The 32 digest bytes of a SHA-256 state. -/
def words8Bytes (st : Words8) : List Nat :=
  wordBytes st.a ++ wordBytes st.b ++ wordBytes st.c ++ wordBytes st.d ++
  wordBytes st.e ++ wordBytes st.f ++ wordBytes st.g ++ wordBytes st.h

/-- A lowercase hexadecimal digit character for a nibble. -/
def hexChar (n : Nat) : Char := Char.ofNat (if n < 10 then 48 + n else 87 + n)

/-- The two lowercase hex characters of one byte, as printed by Go's `%x`. -/
def byteHex (b : Nat) : List Char := [hexChar (b / 16 % 16), hexChar (b % 16)]

/-- UTF-8 encoding of one character as a byte list. -/
def utf8Char (c : Char) : List Nat :=
  let n := c.toNat
  if n < 0x80 then [n]
  else if n < 0x800 then [0xc0 + n / 64, 0x80 + n % 64]
  else if n < 0x10000 then [0xe0 + n / 4096, 0x80 + (n / 64) % 64, 0x80 + n % 64]
  else [0xf0 + n / 262144, 0x80 + (n / 4096) % 64, 0x80 + (n / 64) % 64, 0x80 + n % 64]

/-- The UTF-8 bytes of a string, as Go's conversion of a `string` to a byte
slice produces them. -/
def strBytes (s : String) : List Nat := (s.data.map utf8Char).flatten

/-- Go byte length of a string (`len(s)` on a Go string counts UTF-8 bytes). -/
def goStrLen (s : String) : Nat := (strBytes s).length

/-- `fmt.Sprintf("%x", sha256.Sum256([]byte(s)))`: the SHA-256 digest of the
UTF-8 bytes of `s`, rendered as 64 lowercase hex characters. -/
def sha256hex (s : String) : String :=
  String.mk (((words8Bytes (sha256 (strBytes s))).map byteHex).flatten)

/-! ## Data model (`NetFlowRecord`, `NetFlowBlob`, `EvidenceExport`) -/

/-- `NetFlowRecord` from `main.go`: the original evidentiary unit. -/
structure NetFlowRecord where
  timestamp : Int
  srcIP : String
  dstIP : String
  srcPort : Nat
  dstPort : Nat
  protocol : String
  bytesSent : Int
  packetCount : Int
  payload : String

/-- `NetFlowBlob` from `main.go`: a record plus its chain metadata. -/
structure NetFlowBlob where
  blobID : String
  timestamp : Int
  record : NetFlowRecord
  previousHash : String
  hash : String
  deviationScore : Float
  isAnomaly : Bool

/-- `EvidenceExport` from `main.go`: the top-level artifact under verification. -/
structure EvidenceExport where
  version : String
  exportedAt : String
  exportedBy : String
  chainHash : String
  blobCount : Int
  firstBlobHash : String
  lastBlobHash : String
  timeRange : List (String × String)
  blobs : List NetFlowBlob

/-! ## The verification pass of `verifyEvidence` -/

/-- The hash input string of a blob, as built by
`fmt.Sprintf("%s|%s|%d|%d|%s|%d|%d|%d|%s", ...)` in `verifyEvidence`. -/
def hashInput (b : NetFlowBlob) : String :=
  b.record.srcIP ++ "|" ++ b.record.dstIP ++ "|" ++ toString b.record.srcPort ++ "|" ++
  toString b.record.dstPort ++ "|" ++ b.record.protocol ++ "|" ++ toString b.record.timestamp ++
  "|" ++ toString b.record.bytesSent ++ "|" ++ toString b.record.packetCount ++ "|" ++
  b.previousHash

/-- The recomputed hash of a blob (`computedHash` in `verifyEvidence`). -/
def computedBlobHash (b : NetFlowBlob) : String := sha256hex (hashInput b)

/-- The accumulator of the verification loop: the two error counters plus the
positions whose mismatch/break details were printed (capped at 3 each). -/
structure ScanState where
  blobHashErrors : Nat
  chainErrors : Nat
  hashMismatchReports : List Nat
  chainBreakReports : List Nat

/-- One iteration of the loop body of `verifyEvidence` at position `i`:
the per-blob hash comparison, then (when a predecessor exists, i.e. `i > 0`)
the chain-linkage comparison against the predecessor's stored hash. -/
def scanStep (i : Nat) (prev : Option NetFlowBlob) (b : NetFlowBlob) (s : ScanState) : ScanState :=
  let s1 :=
    if computedBlobHash b != b.hash then
      let n := s.blobHashErrors + 1
      { s with blobHashErrors := n,
               hashMismatchReports :=
                 if n ≤ 3 then s.hashMismatchReports ++ [i] else s.hashMismatchReports }
    else s
  match prev with
  | none => s1
  | some p =>
      if b.previousHash != p.hash then
        let m := s1.chainErrors + 1
        { s1 with chainErrors := m,
                  chainBreakReports :=
                    if m ≤ 3 then s1.chainBreakReports ++ [i] else s1.chainBreakReports }
      else s1

/-- The verification loop of `verifyEvidence` over the blob list; `prev` is the
blob at position `i - 1` (`export.Blobs[i-1]` in the source), absent at `i = 0`. -/
def scanBlobs : Nat → Option NetFlowBlob → List NetFlowBlob → ScanState → ScanState
  | _, _, [], s => s
  | i, prev, b :: rest, s => scanBlobs (i + 1) (some b) rest (scanStep i prev b s)

/-- The state after the whole verification loop of `verifyEvidence`. -/
def verifyScan (e : EvidenceExport) : ScanState :=
  scanBlobs 0 none e.blobs ⟨0, 0, [], []⟩

/-- `blobHashErrors` after the loop. -/
def blobHashErrors (e : EvidenceExport) : Nat := (verifyScan e).blobHashErrors

/-- `chainErrors` after the loop. -/
def chainErrors (e : EvidenceExport) : Nat := (verifyScan e).chainErrors

/-- The chain-hash input: every blob's stored hash appended in sequence order
(the `strings.Builder` loop in `verifyEvidence`). -/
def chainHashInput (e : EvidenceExport) : String :=
  e.blobs.foldl (fun acc b => acc ++ b.hash) ""

/-- `computedChainHash` in `verifyEvidence`. -/
def computedChainHash (e : EvidenceExport) : String := sha256hex (chainHashInput e)

/-- `chainHashMatch` in `verifyEvidence`: exact string comparison of the
computed chain hash with the stored `chain_hash`. -/
def chainHashMatchB (e : EvidenceExport) : Bool := computedChainHash e == e.chainHash

/-- The final verdict banner of the run. -/
inductive Verdict where
  | Verified : Verdict
  | Tampered : Verdict
deriving DecidableEq

/-- `printVerificationResult` from `main.go` as a pure function: the verdict and
the process exit code (`os.Exit(1)` on tampering, falling through to exit 0
otherwise). -/
def printVerificationResult (blobErrors chainErrors : Nat) (chainHashMatch : Bool) :
    Verdict × Nat :=
  if blobErrors = 0 ∧ chainErrors = 0 ∧ chainHashMatch = true then (Verdict.Verified, 0)
  else (Verdict.Tampered, 1)

/-- The verification core of `verifyEvidence` on a parsed export: run the loop,
compute the chain hash comparison, and produce the final verdict and exit code. -/
def verifyExport (e : EvidenceExport) : Verdict × Nat :=
  let s := verifyScan e
  printVerificationResult s.blobHashErrors s.chainErrors (chainHashMatchB e)

/-! ## Run-level model with the display-slicing panics

`verifyEvidence` prints `blob.Hash[:32]`, `computedHash[:32]`,
`expectedPrevHash[:32]`, `blob.PreviousHash[:32]` and
`export.ChainHash[:32]` while reporting.  Go string slicing `s[:32]`
panics (`slice bounds out of range`) whenever `len(s) < 32` bytes, so these
prints can abort the run.  `none` models such a panic. -/

/-- Whether the Go slice expression `s[:32]` succeeds (no panic). -/
def sliceOk32 (s : String) : Bool := 32 ≤ goStrLen s

/-- One loop iteration of `verifyEvidence` with the reporting prints modelled:
`none` when a print slices a string shorter than 32 bytes and panics. -/
def scanStepRun (prev : Option NetFlowBlob) (b : NetFlowBlob) (s : Nat × Nat) :
    Option (Nat × Nat) :=
  let step1 : Option (Nat × Nat) :=
    if computedBlobHash b != b.hash then
      let n := s.1 + 1
      if n ≤ 3 then
        if sliceOk32 b.hash && sliceOk32 (computedBlobHash b) then some (n, s.2) else none
      else some (n, s.2)
    else some s
  match step1 with
  | none => none
  | some s1 =>
    match prev with
    | none => some s1
    | some p =>
        if b.previousHash != p.hash then
          let m := s1.2 + 1
          if m ≤ 3 then
            if sliceOk32 p.hash && sliceOk32 b.previousHash then some (s1.1, m) else none
          else some (s1.1, m)
        else some s1

/-- The verification loop with reporting panics modelled. -/
def scanBlobsRun : Option NetFlowBlob → List NetFlowBlob → Nat × Nat → Option (Nat × Nat)
  | _, [], s => some s
  | prev, b :: rest, s =>
    match scanStepRun prev b s with
    | none => none
    | some s1 => scanBlobsRun (some b) rest s1

/-- `verifyEvidence` on a parsed export at the run level: the loop, then the
chain-hash phase, which always prints `export.ChainHash[:32]` and
`computedChainHash[:32]` before the verdict.  `none` models a panic. -/
def verifyEvidenceRun (e : EvidenceExport) : Option (Verdict × Nat) :=
  match scanBlobsRun none e.blobs (0, 0) with
  | none => none
  | some s =>
      if sliceOk32 e.chainHash && sliceOk32 (computedChainHash e) then
        some (printVerificationResult s.1 s.2 (chainHashMatchB e))
      else none

/-! ## Specification-side helper functions -/

/-- Joining a list of strings with the separator `|` (the specification's
description of the hash input construction). -/
def joinPipe : List String → String
  | [] => ""
  | [s] => s
  | s :: rest => s ++ "|" ++ joinPipe rest

/-- The number of blobs whose recomputed hash differs from the stored hash. -/
def countMismatch : List NetFlowBlob → Nat
  | [] => 0
  | b :: rest => (if computedBlobHash b != b.hash then 1 else 0) + countMismatch rest

/-- The number of linkage breaks in a blob list, given the predecessor of its
first element (`none` when the first element is at position 0). -/
def breaksFrom : Option NetFlowBlob → List NetFlowBlob → Nat
  | _, [] => 0
  | none, b :: rest => breaksFrom (some b) rest
  | some p, b :: rest => (if b.previousHash != p.hash then 1 else 0) + breaksFrom (some b) rest

/-- Replace the blob sequence of an export, keeping all other fields. -/
def withBlobs (e : EvidenceExport) (l : List NetFlowBlob) : EvidenceExport :=
  { e with blobs := l }

/-! ## Lemmas about the verification loop -/

/-- The loop body adds one to `blobHashErrors` exactly on a hash mismatch. -/
theorem scanStep_blobHashErrors (i : Nat) (prev : Option NetFlowBlob) (b : NetFlowBlob)
    (s : ScanState) :
    (scanStep i prev b s).blobHashErrors
      = s.blobHashErrors + (if computedBlobHash b != b.hash then 1 else 0) := by
  unfold scanStep
  cases prev with
  | none =>
      cases hm : (computedBlobHash b != b.hash) <;> simp [hm]
  | some p =>
      cases hm : (computedBlobHash b != b.hash) <;>
        cases hl : (b.previousHash != p.hash) <;> simp [hm, hl]

/-- The loop body adds one to `chainErrors` exactly on a linkage break, and only
when a predecessor exists. -/
theorem scanStep_chainErrors (i : Nat) (prev : Option NetFlowBlob) (b : NetFlowBlob)
    (s : ScanState) :
    (scanStep i prev b s).chainErrors
      = s.chainErrors +
        (match prev with
         | none => 0
         | some p => if b.previousHash != p.hash then 1 else 0) := by
  unfold scanStep
  cases prev with
  | none =>
      cases hm : (computedBlobHash b != b.hash) <;> simp [hm]
  | some p =>
      cases hm : (computedBlobHash b != b.hash) <;>
        cases hl : (b.previousHash != p.hash) <;> simp [hm, hl]

/-- Over a whole list, the loop accumulates exactly the number of hash
mismatches on top of the incoming counter. -/
theorem scanBlobs_blobHashErrors (l : List NetFlowBlob) :
    ∀ (i : Nat) (prev : Option NetFlowBlob) (s : ScanState),
      (scanBlobs i prev l s).blobHashErrors = s.blobHashErrors + countMismatch l := by
  induction l with
  | nil => intro i prev s; simp [scanBlobs, countMismatch]
  | cons b rest ih =>
      intro i prev s
      simp only [scanBlobs, countMismatch, ih, scanStep_blobHashErrors]
      omega

/-- Over a whole list, the loop accumulates exactly the number of linkage
breaks on top of the incoming counter. -/
theorem scanBlobs_chainErrors (l : List NetFlowBlob) :
    ∀ (i : Nat) (prev : Option NetFlowBlob) (s : ScanState),
      (scanBlobs i prev l s).chainErrors = s.chainErrors + breaksFrom prev l := by
  induction l with
  | nil => intro i prev s; simp [scanBlobs, breaksFrom]
  | cons b rest ih =>
      intro i prev s
      cases prev with
      | none =>
          simp only [scanBlobs, breaksFrom, ih, scanStep_chainErrors]
          omega
      | some p =>
          simp only [scanBlobs, breaksFrom, ih, scanStep_chainErrors]
          omega

/-- The hash-mismatch report list produced by one loop body. -/
theorem scanStep_hashReports (i : Nat) (prev : Option NetFlowBlob) (b : NetFlowBlob)
    (s : ScanState) :
    (scanStep i prev b s).hashMismatchReports
      = if computedBlobHash b != b.hash then
          (if s.blobHashErrors + 1 ≤ 3 then s.hashMismatchReports ++ [i]
           else s.hashMismatchReports)
        else s.hashMismatchReports := by
  unfold scanStep
  cases prev with
  | none =>
      cases hm : (computedBlobHash b != b.hash) <;> simp [hm]
  | some p =>
      cases hm : (computedBlobHash b != b.hash) <;>
        cases hl : (b.previousHash != p.hash) <;> simp [hm, hl]

/-- The chain-break report list produced by one loop body. -/
theorem scanStep_chainReports (i : Nat) (prev : Option NetFlowBlob) (b : NetFlowBlob)
    (s : ScanState) :
    (scanStep i prev b s).chainBreakReports
      = match prev with
        | none => s.chainBreakReports
        | some p =>
            if b.previousHash != p.hash then
              (if s.chainErrors + 1 ≤ 3 then s.chainBreakReports ++ [i]
               else s.chainBreakReports)
            else s.chainBreakReports := by
  unfold scanStep
  cases prev with
  | none =>
      cases hm : (computedBlobHash b != b.hash) <;> simp [hm]
  | some p =>
      cases hm : (computedBlobHash b != b.hash) <;>
        cases hl : (b.previousHash != p.hash) <;> simp [hm, hl]

/-- The report lists stay in lockstep with the counters, capped at three
entries: the invariant preserved by one loop body. -/
theorem scanStep_capInv (i : Nat) (prev : Option NetFlowBlob) (b : NetFlowBlob) (s : ScanState)
    (h1 : s.hashMismatchReports.length = min s.blobHashErrors 3)
    (h2 : s.chainBreakReports.length = min s.chainErrors 3) :
    (scanStep i prev b s).hashMismatchReports.length
        = min (scanStep i prev b s).blobHashErrors 3
      ∧ (scanStep i prev b s).chainBreakReports.length
        = min (scanStep i prev b s).chainErrors 3 := by
  constructor
  · rw [scanStep_hashReports, scanStep_blobHashErrors]
    split
    · split <;> simp [h1] <;> omega
    · simpa using h1
  · rw [scanStep_chainReports, scanStep_chainErrors]
    cases prev with
    | none => simpa using h2
    | some p =>
        simp only
        split
        · split <;> simp [h2] <;> omega
        · simpa using h2

/-- The report-cap invariant holds after the whole loop. -/
theorem scanBlobs_capInv (l : List NetFlowBlob) :
    ∀ (i : Nat) (prev : Option NetFlowBlob) (s : ScanState),
      s.hashMismatchReports.length = min s.blobHashErrors 3 →
      s.chainBreakReports.length = min s.chainErrors 3 →
      (scanBlobs i prev l s).hashMismatchReports.length
          = min (scanBlobs i prev l s).blobHashErrors 3
        ∧ (scanBlobs i prev l s).chainBreakReports.length
          = min (scanBlobs i prev l s).chainErrors 3 := by
  induction l with
  | nil => intro i prev s h1 h2; exact ⟨h1, h2⟩
  | cons b rest ih =>
      intro i prev s h1 h2
      have hstep := scanStep_capInv i prev b s h1 h2
      exact ih (i + 1) (some b) (scanStep i prev b s) hstep.1 hstep.2

/-- `countMismatch` agrees with `List.countP` over the mismatch predicate. -/
theorem countMismatch_eq_countP (l : List NetFlowBlob) :
    countMismatch l = l.countP (fun b => computedBlobHash b != b.hash) := by
  induction l with
  | nil => simp [countMismatch]
  | cons b rest ih => simp [countMismatch, List.countP_cons, ih]; omega

/-- Linkage breaks below a known predecessor are the mismatching adjacent pairs
of the list extended with that predecessor. -/
theorem breaksFrom_some_eq (l : List NetFlowBlob) :
    ∀ (p : NetFlowBlob),
      breaksFrom (some p) l
        = ((p :: l).zip l).countP (fun q => q.2.previousHash != q.1.hash) := by
  induction l with
  | nil => intro p; simp [breaksFrom]
  | cons b rest ih =>
      intro p
      simp [breaksFrom, List.zip_cons_cons, List.countP_cons, ih b]
      omega

/-- Linkage breaks from position 0 are the mismatching adjacent pairs: position 0
itself is never compared. -/
theorem breaksFrom_none_eq (l : List NetFlowBlob) :
    breaksFrom none l = (l.zip l.tail).countP (fun q => q.2.previousHash != q.1.hash) := by
  cases l with
  | nil => simp [breaksFrom]
  | cons b rest => simpa [breaksFrom] using breaksFrom_some_eq rest b

/-- The two counters computed by `verifyEvidence` over a whole export. -/
theorem verifyScan_counts (e : EvidenceExport) :
    blobHashErrors e = countMismatch e.blobs ∧ chainErrors e = breaksFrom none e.blobs := by
  constructor
  · simpa using scanBlobs_blobHashErrors e.blobs 0 none ⟨0, 0, [], []⟩
  · simpa using scanBlobs_chainErrors e.blobs 0 none ⟨0, 0, [], []⟩

/-- A first blob's stored hash is all the linkage check reads of it. -/
theorem breaksFrom_hash_congr (x y : NetFlowBlob) (hxy : x.hash = y.hash)
    (l : List NetFlowBlob) : breaksFrom (some x) l = breaksFrom (some y) l := by
  cases l with
  | nil => rfl
  | cons c r => simp [breaksFrom, hxy]

/-! ## Lemmas about the rendered digest -/

/-- The digest state always yields exactly 32 bytes. -/
theorem words8Bytes_length (st : Words8) : (words8Bytes st).length = 32 := by
  simp [words8Bytes, wordBytes]

/-- Rendering bytes in hex doubles the length. -/
theorem flatten_map_byteHex_length (bs : List Nat) :
    ((bs.map byteHex).flatten).length = 2 * bs.length := by
  induction bs with
  | nil => simp
  | cons b rest ih => simp [byteHex, ih]; omega

/-- The rendered SHA-256 digest of any string is exactly 64 characters. -/
theorem sha256hex_length (s : String) : (sha256hex s).length = 64 := by
  show (String.mk (((words8Bytes (sha256 (strBytes s))).map byteHex).flatten)).length = 64
  show (((words8Bytes (sha256 (strBytes s))).map byteHex).flatten).length = 64
  rw [flatten_map_byteHex_length, words8Bytes_length]

/-- `hexChar` of a nibble is a lowercase hexadecimal digit. -/
theorem hexChar_mem (n : Nat) (hn : n < 16) : hexChar n ∈ "0123456789abcdef".data := by
  interval_cases n <;> decide

/-- Every character of a rendered SHA-256 digest is a lowercase hex digit. -/
theorem mem_sha256hex_data (s : String) :
    ∀ c ∈ (sha256hex s).data, c ∈ "0123456789abcdef".data := by
  intro c hc
  have hmem : c ∈ ((words8Bytes (sha256 (strBytes s))).map byteHex).flatten := hc
  rw [List.mem_flatten] at hmem
  obtain ⟨l, hl, hcl⟩ := hmem
  rw [List.mem_map] at hl
  obtain ⟨b, _, rfl⟩ := hl
  simp only [byteHex, List.mem_cons, List.mem_singleton, List.not_mem_nil, or_false] at hcl
  rcases hcl with rfl | rfl
  · exact hexChar_mem _ (Nat.mod_lt _ (by norm_num))
  · exact hexChar_mem _ (Nat.mod_lt _ (by norm_num))

/-- The hash-input string agrees with the `|`-join of the nine hashed fields. -/
theorem hashInput_eq_joinPipe (b : NetFlowBlob) :
    hashInput b
      = joinPipe
          [b.record.srcIP, b.record.dstIP, toString b.record.srcPort,
           toString b.record.dstPort, b.record.protocol, toString b.record.timestamp,
           toString b.record.bytesSent, toString b.record.packetCount, b.previousHash] := by
  simp [hashInput, joinPipe, String.append_assoc]

/-! ## Concrete fixtures used by witnesses and counterexamples -/

/-- A minimal record for concrete test exports. -/
def rec0 : NetFlowRecord := ⟨0, "a", "b", 1, 2, "t", 0, 0, ""⟩

/-- A blob whose stored hash is 3 characters long (so never a valid digest). -/
def blobShortHash : NetFlowBlob := ⟨"id", 0, rec0, "", "abc", 0.5, false⟩

/-- An export containing `blobShortHash` only. -/
def exportShortHash : EvidenceExport :=
  ⟨"1.0", "now", "tester", "c", 1, "", "", [], [blobShortHash]⟩

/-- An export with no blobs and the correct empty-input chain hash. -/
def exportEmpty : EvidenceExport :=
  ⟨"1.0", "now", "tester",
   "e3b0c44298fc1c149afbf4c8996fb92427ae41e4649b934ca495991b7852b855", 0, "", "", [], []⟩

/-- An export whose single blob stores the 8-byte hash `deadbeef`: its hash
mismatches, and printing `blob.Hash[:32]` slices past the end of the string. -/
def exportPanic : EvidenceExport :=
  ⟨"1.0", "now", "tester", "c", 1, "", "", [],
   [⟨"id2", 0, rec0, "", "deadbeef", 0.5, false⟩]⟩

/-! ## The claims -/

/-- C1: the verdict of `verifyEvidence` is Verified with exit code 0 exactly
when the per-blob mismatch count is zero, the linkage break count is zero, and
the computed chain hash equals the stored `chain_hash`; otherwise it is
Tampered with exit code 1. -/
theorem claim_c1 (e : EvidenceExport) :
    (verifyExport e = (Verdict.Verified, 0)
        ↔ blobHashErrors e = 0 ∧ chainErrors e = 0 ∧ chainHashMatchB e = true)
      ∧ (verifyExport e = (Verdict.Tampered, 1)
        ↔ ¬(blobHashErrors e = 0 ∧ chainErrors e = 0 ∧ chainHashMatchB e = true)) := by
  by_cases h : (verifyScan e).blobHashErrors = 0 ∧ (verifyScan e).chainErrors = 0
      ∧ chainHashMatchB e = true
  · simp [verifyExport, printVerificationResult, blobHashErrors, chainErrors, h]
  · simp [verifyExport, printVerificationResult, blobHashErrors, chainErrors, h]

/-- C2: the recomputed per-blob hash is the SHA-256 digest (lowercase hex) of
the UTF-8 bytes of the `|`-join of src_ip, dst_ip, src_port, dst_port,
protocol, record timestamp, bytes_sent, packet_count and the blob's stored
previous_hash, in that order and in base-10 for numerics; the payload,
blob_id, blob timestamp, deviation_score and is_anomaly fields do not enter
the hash input. -/
theorem claim_c2 (b : NetFlowBlob) (pl id : String) (ts : Int) (ds : Float) (an : Bool) :
    computedBlobHash b
        = sha256hex
            (joinPipe
              [b.record.srcIP, b.record.dstIP, toString b.record.srcPort,
               toString b.record.dstPort, b.record.protocol, toString b.record.timestamp,
               toString b.record.bytesSent, toString b.record.packetCount, b.previousHash])
      ∧ computedBlobHash { b with record := { b.record with payload := pl } }
        = computedBlobHash b
      ∧ computedBlobHash
          { b with blobID := id, timestamp := ts, deviationScore := ds, isAnomaly := an }
        = computedBlobHash b := by
  refine ⟨?_, rfl, rfl⟩
  unfold computedBlobHash
  rw [hashInput_eq_joinPipe]

/-- C3: the linkage check compares, at every position `i > 0`, the blob's
stored previous_hash with the stored hash of the blob at `i - 1` (counting a
break on inequality), and position 0 is never compared: its previous_hash can
change arbitrarily without changing the break count. -/
theorem claim_c3 (e : EvidenceExport) (b : NetFlowBlob) (p : String)
    (rest : List NetFlowBlob) :
    chainErrors e
        = (e.blobs.zip e.blobs.tail).countP (fun q => q.2.previousHash != q.1.hash)
      ∧ chainErrors (withBlobs e ({ b with previousHash := p } :: rest))
        = chainErrors (withBlobs e (b :: rest)) := by
  constructor
  · rw [(verifyScan_counts e).2, breaksFrom_none_eq]
  · rw [(verifyScan_counts (withBlobs e ({ b with previousHash := p } :: rest))).2,
      (verifyScan_counts (withBlobs e (b :: rest))).2]
    show breaksFrom (some { b with previousHash := p }) rest = breaksFrom (some b) rest
    exact breaksFrom_hash_congr { b with previousHash := p } b rfl rest

/-- C4: the chain-hash check hashes the separator-free concatenation of every
blob's stored hash in sequence order with SHA-256 (lowercase hex) and reports
a match exactly on string equality with the stored `chain_hash`. -/
theorem claim_c4 (e : EvidenceExport) :
    computedChainHash e = sha256hex (String.join (e.blobs.map fun b => b.hash))
      ∧ (chainHashMatchB e = true ↔ computedChainHash e = e.chainHash) := by
  constructor
  · unfold computedChainHash chainHashInput
    congr 1
    simp [String.join, List.foldl_map]
  · simp [chainHashMatchB]

/-- C5: neither per-blob check short-circuits: the final mismatch counter is
the number of mismatching positions over the entire sequence and the break
counter the number of breaking positions `i > 0`, while the detail reports are
capped at the first three of each. -/
theorem claim_c5 (e : EvidenceExport) :
    blobHashErrors e = e.blobs.countP (fun b => computedBlobHash b != b.hash)
      ∧ chainErrors e
        = (e.blobs.zip e.blobs.tail).countP (fun q => q.2.previousHash != q.1.hash)
      ∧ (verifyScan e).hashMismatchReports.length = min (blobHashErrors e) 3
      ∧ (verifyScan e).chainBreakReports.length = min (chainErrors e) 3 := by
  refine ⟨?_, ?_, ?_, ?_⟩
  · rw [(verifyScan_counts e).1, countMismatch_eq_countP]
  · rw [(verifyScan_counts e).2, breaksFrom_none_eq]
  · exact (scanBlobs_capInv e.blobs 0 none ⟨0, 0, [], []⟩ (by simp) (by simp)).1
  · exact (scanBlobs_capInv e.blobs 0 none ⟨0, 0, [], []⟩ (by simp) (by simp)).2

/-- C9: the verdict depends only on the blob sequence and the stored
`chain_hash`: two exports agreeing on those agree on the mismatch count, break
count, chain-hash match and verdict, whatever their advisory metadata. -/
theorem claim_c9 (e1 e2 : EvidenceExport) (hb : e1.blobs = e2.blobs)
    (hc : e1.chainHash = e2.chainHash) :
    blobHashErrors e1 = blobHashErrors e2
      ∧ chainErrors e1 = chainErrors e2
      ∧ chainHashMatchB e1 = chainHashMatchB e2
      ∧ verifyExport e1 = verifyExport e2 := by
  simp only [blobHashErrors, chainErrors, chainHashMatchB, verifyExport, computedChainHash,
    chainHashInput, verifyScan]
  rw [hb, hc]
  exact ⟨rfl, rfl, rfl, rfl⟩

/-- C9 witness: two exports sharing blobs and chain hash but differing in every
advisory metadata field get the same counts, match and verdict. -/
theorem claim_c9_witness :
    (EvidenceExport.mk "1.0" "now" "tester" "c" 1 "" "" [] [blobShortHash]).blobs
        = (EvidenceExport.mk "2.0" "later" "other" "c" 99 "zz" "yy" [("start", "end")]
            [blobShortHash]).blobs
      ∧ verifyExport (EvidenceExport.mk "1.0" "now" "tester" "c" 1 "" "" [] [blobShortHash])
        = verifyExport
            (EvidenceExport.mk "2.0" "later" "other" "c" 99 "zz" "yy" [("start", "end")]
              [blobShortHash]) :=
  ⟨rfl, (claim_c9 _ _ rfl rfl).2.2.2⟩

/-- C10: the recomputed digest is always exactly 64 lowercase hexadecimal
characters, so a blob whose stored hash is not 64 characters long always
mismatches and makes the mismatch count positive. -/
theorem claim_c10 (b : NetFlowBlob) (e : EvidenceExport) :
    (computedBlobHash b).length = 64
      ∧ (∀ c ∈ (computedBlobHash b).data, c ∈ "0123456789abcdef".data)
      ∧ (b.hash.length ≠ 64 → computedBlobHash b ≠ b.hash)
      ∧ (b ∈ e.blobs → b.hash.length ≠ 64 → 0 < blobHashErrors e) := by
  refine ⟨sha256hex_length _, mem_sha256hex_data _, ?_, ?_⟩
  · intro hlen heq
    exact hlen (by rw [← heq]; exact sha256hex_length _)
  · intro hmem hlen
    rw [(verifyScan_counts e).1, countMismatch_eq_countP, List.countP_pos_iff]
    refine ⟨b, hmem, ?_⟩
    simp only [bne_iff_ne, ne_eq, decide_eq_true_eq]
    intro heq
    exact hlen (by rw [← heq]; exact sha256hex_length _)

/-- C10 witness: a concrete blob with the 3-character stored hash `abc` always
mismatches, and an export containing it has a positive mismatch count. -/
theorem claim_c10_witness :
    blobShortHash.hash.length ≠ 64
      ∧ computedBlobHash blobShortHash ≠ blobShortHash.hash
      ∧ 0 < blobHashErrors exportShortHash := by
  refine ⟨by decide, (claim_c10 blobShortHash exportShortHash).2.2.1 (by decide),
    (claim_c10 blobShortHash exportShortHash).2.2.2 (List.mem_singleton.mpr rfl) (by decide)⟩

set_option maxRecDepth 100000 in
/-- C8: on an empty blob sequence the computed chain hash is the SHA-256
digest of the empty input, and an empty export storing exactly that digest
verifies as Verified with zero mismatches and zero breaks. -/
theorem claim_c8 (e : EvidenceExport) (h : e.blobs = []) :
    computedChainHash e = sha256hex ""
      ∧ sha256hex ""
        = "e3b0c44298fc1c149afbf4c8996fb92427ae41e4649b934ca495991b7852b855"
      ∧ (e.chainHash = "e3b0c44298fc1c149afbf4c8996fb92427ae41e4649b934ca495991b7852b855" →
          verifyExport e = (Verdict.Verified, 0)
            ∧ blobHashErrors e = 0 ∧ chainErrors e = 0) := by
  have hempty :
      sha256hex "" = "e3b0c44298fc1c149afbf4c8996fb92427ae41e4649b934ca495991b7852b855" := by
    decide
  have hcomputed : computedChainHash e = sha256hex "" := by
    unfold computedChainHash chainHashInput
    rw [h]
    rfl
  refine ⟨hcomputed, hempty, ?_⟩
  intro hch
  have h1 : (verifyScan e).blobHashErrors = 0 := by
    have := (verifyScan_counts e).1
    rw [h] at this
    exact this
  have h2 : (verifyScan e).chainErrors = 0 := by
    have := (verifyScan_counts e).2
    rw [h] at this
    exact this
  have hmatch : chainHashMatchB e = true := by
    unfold chainHashMatchB
    rw [hcomputed, hempty, hch]
    simp
  refine ⟨?_, h1, h2⟩
  simp [verifyExport, printVerificationResult, h1, h2, hmatch]

/-- C8 witness: the concrete zero-blob export with the empty-input digest as
its stored chain hash verifies as Verified. -/
theorem claim_c8_witness :
    exportEmpty.blobs = []
      ∧ exportEmpty.chainHash
        = "e3b0c44298fc1c149afbf4c8996fb92427ae41e4649b934ca495991b7852b855"
      ∧ computedChainHash exportEmpty = sha256hex ""
      ∧ verifyExport exportEmpty = (Verdict.Verified, 0) :=
  ⟨rfl, rfl, (claim_c8 exportEmpty rfl).1, ((claim_c8 exportEmpty rfl).2.2 rfl).1⟩

set_option maxRecDepth 100000 in
/-- C6: refuted on the code — reporting a hash mismatch on a blob whose stored
hash is shorter than 32 bytes evaluates `blob.Hash[:32]`, which panics in Go
(`slice bounds out of range`), so the run aborts instead of representing the
discrepancy as data: on `exportPanic` the run-level model reaches no result. -/
theorem claim_c6_run : verifyEvidenceRun exportPanic = none := by decide

/-! ## Single-field mutation (towards C7)

Mutating one hash-input field of one blob leaves every other position's hash
input untouched, so the mutated export mismatches at most at the mutated
position, and exactly there whenever the two digests differ.  Whether the two
digests always differ for distinct `bytes_sent` values is SHA-256
collision-freeness on that input pair, which is not decidable here. -/

/-- Replace the `bytes_sent` field of a blob's record, leaving everything else
(including the stored `hash` and `previous_hash`) unchanged. -/
def setBytesSent (b : NetFlowBlob) (v : Int) : NetFlowBlob :=
  { b with record := { b.record with bytesSent := v } }

/-- A fully verified list has no mismatches. -/
theorem countMismatch_eq_zero (l : List NetFlowBlob)
    (h : ∀ b ∈ l, computedBlobHash b = b.hash) : countMismatch l = 0 := by
  induction l with
  | nil => rfl
  | cons b rest ih =>
      have hb := h b (List.mem_cons_self b rest)
      simp [countMismatch, hb, ih fun x hx => h x (List.mem_cons_of_mem b hx)]

/-- After mutating `bytes_sent` at position `i` of a verified list, the total
mismatch count is 1 when the mutated digest differs from the stored hash and 0
when the two digests collide; no other position ever mismatches. -/
theorem mutation_countMismatch (l : List NetFlowBlob) (v : Int) :
    ∀ (i : Nat) (hi : i < l.length), (∀ b ∈ l, computedBlobHash b = b.hash) →
      countMismatch (l.set i (setBytesSent (l.get ⟨i, hi⟩) v))
        = if computedBlobHash (setBytesSent (l.get ⟨i, hi⟩) v) = (l.get ⟨i, hi⟩).hash
          then 0 else 1 := by
  induction l with
  | nil => intro i hi; simp at hi
  | cons b rest ih =>
      intro i hi hver
      cases i with
      | zero =>
          have hrest : countMismatch rest = 0 :=
            countMismatch_eq_zero rest fun x hx => hver x (List.mem_cons_of_mem b hx)
          have hhash : (setBytesSent b v).hash = b.hash := rfl
          by_cases hc : computedBlobHash (setBytesSent b v) = b.hash
          · simp [countMismatch, hrest, hc, hhash]
          · simp [countMismatch, hrest, hc, hhash]
      | succ j =>
          have hb := hver b (List.mem_cons_self b rest)
          have hj : j < rest.length := by simpa using hi
          have := ih j hj fun x hx => hver x (List.mem_cons_of_mem b hx)
          simpa [countMismatch, hb] using this

/-- Positions other than the mutated one keep their verified hashes. -/
theorem mutation_other_positions (l : List NetFlowBlob) (i j : Nat) (x : NetFlowBlob)
    (hj : j < l.length) (hne : i ≠ j)
    (hver : ∀ b ∈ l, computedBlobHash b = b.hash) :
    computedBlobHash ((l.set i x).get ⟨j, by simpa using hj⟩)
      = ((l.set i x).get ⟨j, by simpa using hj⟩).hash := by
  have hmem : (l.set i x).get ⟨j, by simpa using hj⟩ = l.get ⟨j, hj⟩ :=
    List.get_set_ne hne ..
  rw [hmem]
  exact hver _ (List.get_mem l j hj)

end Zantoras
